import Mathlib

/-!
Verification of the documentation renderer in `cmd/dagger/cmd/doc.go`.

The Go code is shallowly embedded here.  Go strings are byte strings, so we
model them as `List Nat` of byte values; Go's `utf8.RuneCountInString` is
reproduced byte-for-byte (invalid sequences count one rune per offending
byte, exactly as in Go's `unicode/utf8` package).  The external
collaborators (the CUE compiler, `common.ValueDocString`,
`common.FormatValue`, `environment.ScanInputs/ScanOutputs`) are modelled as
data already attached to the value tree, since `doc.go` only reads their
answers.  `fmt.Printf`/`Fprintf` emissions are modelled as a list of the
formatted strings in emission order; the column alignment performed by
`text/tabwriter` (tab expansion) is presentation-only and is not modelled:
chunks carry the pre-alignment text.
-/

/-- Go strings are byte strings; we model them as lists of byte values. -/
abbrev Str := List Nat

/-- UTF-8 encoding of one character, as in Go source literals. -/
def charBytes (c : Char) : List Nat :=
  let n := c.toNat
  if n < 128 then [n]
  else if n < 2048 then [192 + n / 64, 128 + n % 64]
  else if n < 65536 then [224 + n / 4096, 128 + n / 64 % 64, 128 + n % 64]
  else [240 + n / 262144, 128 + n / 4096 % 64, 128 + n / 64 % 64, 128 + n % 64]

/-- Byte string denoted by a Lean string literal (UTF-8 encoded). -/
def str (s : String) : Str := s.data.flatMap charBytes

/-! ## mdEscape (doc.go lines 93-99)

`strings.ReplaceAll(s, c, "\" + c)` for the single-byte needles `|`, `<`,
`>`, applied in that order.  For a single-byte needle Go's byte-oriented
`ReplaceAll` is exactly a per-byte rewrite. -/

/-- One pass of `strings.ReplaceAll s c ("\\" + c)` for a one-byte needle `b`. -/
def replaceByte (b : Nat) : Str → Str
  | [] => []
  | x :: xs => if x = b then 92 :: b :: replaceByte b xs else x :: replaceByte b xs

/-- `mdEscape` from doc.go: escape `|` (byte 124), then `<` (60), then `>` (62). -/
def mdEscape (s : Str) : Str := replaceByte 62 (replaceByte 60 (replaceByte 124 s))

/-! ## terminalTrim (doc.go lines 101-114)

`term.GetSize` may fail (modelled by `width = none`): the message is
returned unchanged.  Otherwise the loop
`for utf8.RuneCountInString(msg) > size { msg = msg[0:len(msg)-4] + "…" }`
runs; the byte slice `msg[0:len(msg)-4]` panics when `len(msg) < 4`
(slice bounds out of range), modelled by the result `none`. -/

/-- Is `b` a UTF-8 continuation byte (Go `unicode/utf8` locb..hicb)? -/
def isCont (b : Nat) : Bool := decide (128 ≤ b ∧ b ≤ 191)

/-- Accepted range for the second byte of a multi-byte sequence headed by
`b0`, from Go's `unicode/utf8.acceptRanges`. -/
def accept2 (b0 b1 : Nat) : Bool :=
  if b0 = 224 then decide (160 ≤ b1 ∧ b1 ≤ 191)
  else if b0 = 237 then decide (128 ≤ b1 ∧ b1 ≤ 159)
  else if b0 = 240 then decide (144 ≤ b1 ∧ b1 ≤ 191)
  else if b0 = 244 then decide (128 ≤ b1 ∧ b1 ≤ 143)
  else decide (128 ≤ b1 ∧ b1 ≤ 191)

/-- Number of bytes, beyond the leading byte `b0`, consumed by the rune
starting at `b0` when followed by `rest`: Go's `unicode/utf8` decoder
consumes `b0` plus 1-3 accepted continuation bytes for a well-formed
sequence, and `b0` alone (0 extra bytes) for an invalid lead byte, a
rejected second byte, or a truncated sequence. -/
def runeTailLen (b0 : Nat) (rest : List Nat) : Nat :=
  if b0 < 128 then 0
  else if 194 ≤ b0 ∧ b0 ≤ 223 then
    match rest with
    | b1 :: _ => if accept2 b0 b1 then 1 else 0
    | [] => 0
  else if 224 ≤ b0 ∧ b0 ≤ 239 then
    match rest with
    | b1 :: b2 :: _ => if accept2 b0 b1 && isCont b2 then 2 else 0
    | _ => 0
  else if 240 ≤ b0 ∧ b0 ≤ 244 then
    match rest with
    | b1 :: b2 :: b3 :: _ => if accept2 b0 b1 && isCont b2 && isCont b3 then 3 else 0
    | _ => 0
  else 0

/-- Rune counting with explicit fuel (each step consumes at least the
leading byte, so `s.length` fuel always suffices; see `runeCount`). -/
def runeCountF : Nat → List Nat → Nat
  | 0, _ => 0
  | _, [] => 0
  | fuel + 1, b0 :: rest => 1 + runeCountF fuel (rest.drop (runeTailLen b0 rest))

/-- Go `utf8.RuneCountInString` on a byte string: each well-formed sequence
counts as one rune; a malformed or truncated sequence counts one rune for
its first byte only, and decoding resumes at the next byte. -/
def runeCount (s : List Nat) : Nat := runeCountF s.length s

/-- The bytes of the first `n` runes of a byte string (same decoding rules
as `runeCount`); used to state what a "display-character prefix" is. -/
def runeTake : Nat → List Nat → List Nat
  | 0, _ => []
  | _ + 1, [] => []
  | n + 1, b0 :: rest =>
    b0 :: (rest.take (runeTailLen b0 rest) ++ runeTake n (rest.drop (runeTailLen b0 rest)))

/-- UTF-8 bytes of the ellipsis character `…` (U+2026) appended by the loop. -/
def ellipsis : Str := [226, 128, 166]

/-- The trimming loop of `terminalTrim`.  Each iteration replaces `msg` by
`msg[0:len(msg)-4] + "…"`, which shortens it by exactly one byte, so a fuel
of `msg.length + 1` always suffices (`trimLoop_fuel` below); `none` models
the Go panic `slice bounds out of range` raised when `len(msg) < 4`. -/
def trimLoop : Nat → Nat → Str → Option Str
  | 0, _, _ => none
  | fuel + 1, size, msg =>
    if runeCount msg ≤ size then some msg
    else if msg.length < 4 then none
    else trimLoop fuel size (msg.take (msg.length - 4) ++ ellipsis)

/-- `terminalTrim` from doc.go.  `width = none` models `term.GetSize`
failing (not a terminal): the message is returned whole.  Otherwise the
target is half the detected width (`size /= 2`). -/
def terminalTrim (width : Option Nat) (msg : Str) : Option Str :=
  match width with
  | none => some msg
  | some w => trimLoop (msg.length + 1) (w / 2) msg

/-! ## Data model for PrintDoc (doc.go lines 176-289)

The CUE compiler, the value describer and the I/O classifier are external
collaborators: their answers are modelled as data attached to the nodes. -/

/-- Structural kinds reported by `cue.Value.IncompleteKind`; `PrintDoc`
only compares against `cue.StructKind`. -/
inductive CueKind where
  | bottom
  | null
  | bool
  | int
  | float
  | string
  | bytes
  | list
  | struct
  | number
  | top
deriving DecidableEq

/-- A value node as consumed by the row renderers: its dotted path
(`Path().String()`), its display type (`common.FormatValue`) and its doc
string (`common.ValueDocString`). -/
structure VNode where
  path : Str
  typ : Str
  doc : Str
deriving DecidableEq

/-- The value of one top-level field: its doc string, its structural kind,
and the answers of the external I/O classifier (`environment.ScanInputs`,
`environment.ScanOutputs`) on it. -/
structure FieldValue where
  doc : Str
  kind : CueKind
  inputs : List VNode
  outputs : List VNode
deriving DecidableEq

/-- One entry of `val.Fields(cue.Definitions(true))`: its label, whether
its selector is a definition, and its value. -/
structure FieldInfo where
  label : Str
  isDefinition : Bool
  value : FieldValue
deriving DecidableEq

/-- The package root value: its doc string and its field listing
(`none` models `val.Fields` returning an error, which is fatal). -/
structure PkgVal where
  doc : Str
  fields : Option (List FieldInfo)
deriving DecidableEq

/-- The output formats of the `doc` command. -/
inductive Format where
  | txt
  | md
  | json
deriving DecidableEq

/-- Go struct `ValueJSON` from doc.go (`Type` is a Lean keyword, hence
the field is named `Type'` here). -/
structure ValueJSON where
  Name : Str
  Type' : Str
  Description : Str
deriving DecidableEq

/-- Go struct `FieldJSON`.  Go's `encoding/json` distinguishes nil slices
(marshalled as `null`) from empty non-nil ones (marshalled as `[]`):
`none` models a nil slice — the zero value of `FieldJSON{}` — and
`some []` the empty `[]ValueJSON{}` with which `valuesToJSON` starts. -/
structure FieldJSON where
  Name : Str
  Description : Str
  Inputs : Option (List ValueJSON)
  Outputs : Option (List ValueJSON)
deriving DecidableEq

/-- Go struct `PackageJSON`. -/
structure PackageJSON where
  Name : Str
  Description : Str
  Fields : List FieldJSON
deriving DecidableEq

/-- What `PrintDoc` produces: the `Printf` chunks in emission order, and
the assembled `PackageJSON` (serialized at the end in JSON mode; left at
its zero value in the other modes, as in the source). -/
structure DocOutput where
  chunks : List Str
  json : PackageJSON
deriving DecidableEq

/-! ## Helpers of PrintDoc (doc.go lines 116-174) -/

/-- The `textPadding` constant (four spaces). -/
def textPadding : Str := str "    "

/-- Go `strings.TrimPrefix s pre`: drops `pre` when it leads `s`. -/
def trimPfx (s pre : Str) : Str :=
  if pre.isPrefixOf s then s.drop pre.length else s

/-- `formatLabel` from doc.go: the node's path with the
package-name-plus-dot prefix stripped. -/
def formatLabel (name : Str) (v : VNode) : Str :=
  trimPfx v.path (name ++ str ".")

/-- One `Fprintf` row of `printValuesText` (doc.go line 140), with the
description column already trimmed by `terminalTrim`. -/
def txtRow (libName : Str) (i : VNode) (docStr : Str) : Str :=
  str "\t\t" ++ formatLabel libName i ++ str "\t" ++ i.typ ++ str "\t" ++ docStr ++ str "\n"

/-- `printValuesText` from doc.go: a header line (the source prints
"Inputs:" here even when rendering outputs) followed by one row per
value; `none` propagates a `terminalTrim` panic. -/
def printValuesText (width : Option Nat) (libName : Str) (values : List VNode) :
    Option (List Str) :=
  match values.mapM (fun i => (terminalTrim width i.doc).map (txtRow libName i)) with
  | none => none
  | some rows => some ((str "\n" ++ textPadding ++ str "Inputs:\n") :: rows)

/-- First header row of the Markdown table (doc.go line 149). -/
def mdTableHeader1 : Str := str "| Name\t| Type\t| Description    \t|\n"

/-- Second header row of the Markdown table (doc.go line 150). -/
def mdTableHeader2 : Str := str "| -------------\t|:-------------:\t|:-------------:\t|\n"

/-- One row of the Markdown table (doc.go lines 152-155): the Name column
holds `formatLabel` verbatim; the Type and Description columns pass
through `mdEscape`. -/
def mdRow (libName : Str) (i : VNode) : Str :=
  str "|*" ++ formatLabel libName i ++ str "*\t|``" ++ mdEscape i.typ
    ++ str "``\t|" ++ mdEscape i.doc ++ str "\t|\n"

/-- `printValuesMarkdown` from doc.go (the trailing `Fprintln` adds the
final newline chunk). -/
def printValuesMarkdown (libName : Str) (values : List VNode) : List Str :=
  mdTableHeader1 :: mdTableHeader2 :: (values.map (mdRow libName) ++ [str "\n"])

/-- `valuesToJSON` from doc.go. -/
def valuesToJSON (libName : Str) (values : List VNode) : List ValueJSON :=
  values.map (fun i => { Name := formatLabel libName i, Type' := i.typ, Description := i.doc })

/-! ## PrintDoc (doc.go lines 176-289) -/

/-- A top-level member survives `PrintDoc`'s filter iff it is a named
definition whose value's incomplete kind is `struct` (doc.go lines
210-220). -/
def qualifies (f : FieldInfo) : Bool :=
  f.isDefinition && decide (f.value.kind = CueKind.struct)

/-- One iteration of `PrintDoc`'s field loop (doc.go lines 207-280): the
chunks it prints and the `FieldJSON` entries it appends to
`packageJSON.Fields` (an append happens only in JSON mode).  `none`
models a `terminalTrim` panic while printing a text row.  Note doc.go
line 234: the JSON description is computed from the package-level doc
string (`pkgDoc`), not from the field's own value. -/
def processField (width : Option Nat) (pkgDoc : Str) (format : Format) (field : FieldInfo) :
    Option (List Str × List FieldJSON) :=
  if !field.isDefinition then some ([], [])
  else
    let name := field.label
    let v := field.value
    if v.kind ≠ CueKind.struct then some ([], [])
    else
      let comment := v.doc
      let descChunks : List Str :=
        match format with
        | Format.txt => [str "\n" ++ name ++ str "\n\n" ++ textPadding ++ comment ++ str "\n"]
        | Format.md =>
          [str "### " ++ name ++ str "\n\n"]
            ++ (if comment ≠ str "-" then [mdEscape comment ++ str "\n\n"] else [])
        | Format.json => []
      let inp := v.inputs
      let inChunks? : Option (List Str) :=
        match format with
        | Format.txt =>
          if inp.length = 0 then some [str "\n" ++ textPadding ++ str "Inputs: none\n"]
          else printValuesText width name inp
        | Format.md =>
          some ([str "#### " ++ mdEscape name ++ str " Inputs\n\n"]
            ++ (if inp.length = 0 then [str "_No input._\n\n"] else printValuesMarkdown name inp))
        | Format.json => some []
      match inChunks? with
      | none => none
      | some inChunks =>
        let outv := v.outputs
        let outChunks? : Option (List Str) :=
          match format with
          | Format.txt =>
            if outv.length = 0 then some [str "\n" ++ textPadding ++ str "Outputs: none\n"]
            else printValuesText width name outv
          | Format.md =>
            some ([str "#### " ++ mdEscape name ++ str " Outputs\n\n"]
              ++ (if outv.length = 0 then [str "_No output._\n\n"]
                  else printValuesMarkdown name outv))
          | Format.json => some []
        match outChunks? with
        | none => none
        | some outChunks =>
          let fjs : List FieldJSON :=
            match format with
            | Format.json =>
              [{ Name := name,
                 Description := if pkgDoc ≠ [] then pkgDoc else [],
                 Inputs := some (valuesToJSON name inp),
                 Outputs := some (valuesToJSON name outv) }]
            | _ => []
          some (descChunks ++ inChunks ++ outChunks, fjs)

/-- `PrintDoc`'s field loop over the whole listing, accumulating printed
chunks and `packageJSON.Fields` entries in order. -/
def renderFields (width : Option Nat) (pkgDoc : Str) (format : Format) :
    List FieldInfo → Option (List Str × List FieldJSON)
  | [] => some ([], [])
  | f :: fs =>
    match processField width pkgDoc format f, renderFields width pkgDoc format fs with
    | some (cs, js), some (cs', js') => some (cs ++ cs', js ++ js')
    | _, _ => none

/-- The package header chunks in text mode (doc.go lines 188-189). -/
def txtHeader (packageName doc : Str) : List Str :=
  [str "Package " ++ packageName ++ str "\n", str "\n" ++ doc ++ str "\n"]

/-- The package header chunks in Markdown mode (doc.go lines 191-197): the
description is suppressed (just a bare `Println`) when it equals the
sentinel "-". -/
def mdHeader (packageName doc : Str) : List Str :=
  [str "## Package " ++ mdEscape packageName ++ str "\n"]
    ++ (if doc = str "-" then [str "\n"] else [str "\n" ++ mdEscape doc ++ str "\n\n"])

/-- `PrintDoc` from doc.go.  `none` models a fatal abort: `val.Fields`
failing, or a `terminalTrim` panic while printing text rows. -/
def printDoc (packageName : Str) (width : Option Nat) (pkg : PkgVal) (format : Format) :
    Option DocOutput :=
  match pkg.fields with
  | none => none
  | some fields =>
    match renderFields width pkg.doc format fields with
    | none => none
    | some (cs, js) =>
      some { chunks :=
               (match format with
                | Format.txt => txtHeader packageName pkg.doc
                | Format.md => mdHeader packageName pkg.doc
                | Format.json => []) ++ cs,
             json :=
               match format with
               | Format.json =>
                 { Name := packageName,
                   Description := if pkg.doc ≠ [] then pkg.doc else [],
                   Fields := js }
               | _ => { Name := [], Description := [], Fields := js } }

/-! ## Named pieces of the per-field output, used to state the claims -/

/-- The chunk printing a field's name and doc string in text mode
(doc.go line 226). -/
def txtNameChunk (f : FieldInfo) : Str :=
  str "\n" ++ f.label ++ str "\n\n" ++ textPadding ++ f.value.doc ++ str "\n"

/-- The "Inputs: none" line of text mode (doc.go line 245). -/
def txtNoInputsChunk : Str := str "\n" ++ textPadding ++ str "Inputs: none\n"

/-- The "Outputs: none" line of text mode (doc.go line 265). -/
def txtNoOutputsChunk : Str := str "\n" ++ textPadding ++ str "Outputs: none\n"

/-- The chunks of a field's Inputs section in text mode. -/
def txtInChunks (width : Option Nat) (f : FieldInfo) : Option (List Str) :=
  if f.value.inputs.length = 0 then some [txtNoInputsChunk]
  else printValuesText width f.label f.value.inputs

/-- The chunks of a field's Outputs section in text mode. -/
def txtOutChunks (width : Option Nat) (f : FieldInfo) : Option (List Str) :=
  if f.value.outputs.length = 0 then some [txtNoOutputsChunk]
  else printValuesText width f.label f.value.outputs

/-- Relation between a qualifying field and its block of text-mode chunks:
the name chunk followed by the Inputs and Outputs sections. -/
def txtBlockRel (width : Option Nat) (f : FieldInfo) (b : List Str) : Prop :=
  ∃ ic oc, txtInChunks width f = some ic ∧ txtOutChunks width f = some oc ∧
    b = txtNameChunk f :: (ic ++ oc)

/-- The `### name` heading chunk of Markdown mode (doc.go line 228). -/
def mdNameChunk (f : FieldInfo) : Str := str "### " ++ f.label ++ str "\n\n"

/-- The description paragraph of Markdown mode, suppressed for the
sentinel "-" (doc.go lines 229-231). -/
def mdDescChunks (f : FieldInfo) : List Str :=
  if f.value.doc ≠ str "-" then [mdEscape f.value.doc ++ str "\n\n"] else []

/-- The `#### name Inputs` heading chunk (doc.go line 250). -/
def mdInHeaderChunk (f : FieldInfo) : Str := str "#### " ++ mdEscape f.label ++ str " Inputs\n\n"

/-- The `#### name Outputs` heading chunk (doc.go line 270). -/
def mdOutHeaderChunk (f : FieldInfo) : Str := str "#### " ++ mdEscape f.label ++ str " Outputs\n\n"

/-- A field's Inputs section in Markdown mode. -/
def mdInChunks (f : FieldInfo) : List Str :=
  mdInHeaderChunk f ::
    (if f.value.inputs.length = 0 then [str "_No input._\n\n"]
     else printValuesMarkdown f.label f.value.inputs)

/-- A field's Outputs section in Markdown mode. -/
def mdOutChunks (f : FieldInfo) : List Str :=
  mdOutHeaderChunk f ::
    (if f.value.outputs.length = 0 then [str "_No output._\n\n"]
     else printValuesMarkdown f.label f.value.outputs)

/-- The whole block of chunks a qualifying field gets in Markdown mode. -/
def mdFieldChunks (f : FieldInfo) : List Str :=
  mdNameChunk f :: (mdDescChunks f ++ mdInChunks f ++ mdOutChunks f)

/-- The `FieldJSON` appended for a qualifying field (doc.go lines 232-237,
257, 277-278); its `Description` comes from the package doc string. -/
def mkFieldJSON (pkgDoc : Str) (f : FieldInfo) : FieldJSON :=
  { Name := f.label,
    Description := if pkgDoc ≠ [] then pkgDoc else [],
    Inputs := some (valuesToJSON f.label f.value.inputs),
    Outputs := some (valuesToJSON f.label f.value.outputs) }

/-! ## Concrete fixtures used by witnesses and counterexamples -/

/-- A sample input node below the field `mypkg`. -/
def exInput : VNode := { path := str "mypkg.src", typ := str "string", doc := str "input doc" }

/-- A qualifying field: a definition of struct kind. -/
def exField : FieldInfo :=
  { label := str "mypkg", isDefinition := true,
    value := { doc := str "field doc", kind := CueKind.struct,
               inputs := [exInput], outputs := [] } }

/-- A non-qualifying member: a definition of scalar (string) kind. -/
def exScalarField : FieldInfo :=
  { label := str "version", isDefinition := true,
    value := { doc := str "v", kind := CueKind.string, inputs := [], outputs := [] } }

/-- A sample package mixing a scalar-shaped and a struct-shaped definition. -/
def exPkg : PkgVal := { doc := str "pdoc", fields := some [exScalarField, exField] }

/-- A qualifying field with no inputs and no outputs. -/
def exEmptyField : FieldInfo :=
  { label := str "empty", isDefinition := true,
    value := { doc := str "edoc", kind := CueKind.struct, inputs := [], outputs := [] } }

/-- A qualifying field whose doc string is the "no comment" sentinel. -/
def exSentinelField : FieldInfo :=
  { label := str "s", isDefinition := true,
    value := { doc := str "-", kind := CueKind.struct, inputs := [], outputs := [] } }

/-- A node whose short label contains a pipe character. -/
def pipeNode : VNode := { path := str "p.a|b", typ := str "T", doc := str "d" }

/-! ## Helper lemmas -/

/-- Decoding consumes at least one byte per rune, so taking at least
`s.length` runes returns the whole string. -/
theorem runeTake_full : ∀ (n : Nat) (s : List Nat), s.length ≤ n → runeTake n s = s := by
  intro n
  induction n with
  | zero =>
    intro s hs
    have h0 : s = [] := List.length_eq_zero.mp (Nat.le_zero.mp hs)
    simp [h0, runeTake]
  | succ n ih =>
    intro s hs
    cases s with
    | nil => rfl
    | cons b0 rest =>
      have hlen : (rest.drop (runeTailLen b0 rest)).length ≤ n := by
        simp only [List.length_drop]
        simp only [List.length_cons] at hs
        omega
      simp [runeTake, ih _ hlen]

/-- The trimming loop shortens the message by one byte per iteration, so
any fuel beyond the byte length gives the same answer. -/
theorem trimLoop_fuel : ∀ (f g size : Nat) (msg : Str), msg.length < f → msg.length < g →
    trimLoop f size msg = trimLoop g size msg := by
  intro f
  induction f with
  | zero => intro g size msg hf _; exact absurd hf (Nat.not_lt_zero _)
  | succ f ih =>
    intro g size msg hf hg
    cases g with
    | zero => exact absurd hg (Nat.not_lt_zero _)
    | succ g =>
      simp only [trimLoop]
      by_cases h1 : runeCount msg ≤ size
      · simp [h1]
      · simp only [h1, if_false]
        by_cases h2 : msg.length < 4
        · simp [h2]
        · simp only [h2, if_false]
          have hlen : (msg.take (msg.length - 4) ++ ellipsis).length = msg.length - 1 := by
            simp [List.length_append, List.length_take, ellipsis]
            omega
          apply ih
          · omega
          · omega

/-- Soundness of the trimming loop: a successful run returns a message
that fits the target, and it is either the input itself or a byte prefix
of the input followed by the ellipsis bytes. -/
theorem trimLoop_sound : ∀ (f size : Nat) (msg r : Str), trimLoop f size msg = some r →
    runeCount r ≤ size ∧ (r = msg ∨ ∃ n, n + 4 ≤ msg.length ∧ r = msg.take n ++ ellipsis) := by
  intro f
  induction f with
  | zero => intro size msg r h; simp [trimLoop] at h
  | succ f ih =>
    intro size msg r h
    simp only [trimLoop] at h
    by_cases h1 : runeCount msg ≤ size
    · simp only [h1, if_true] at h
      obtain rfl : msg = r := by simpa using h
      exact ⟨h1, Or.inl rfl⟩
    · simp only [h1, if_false] at h
      by_cases h2 : msg.length < 4
      · simp [h2] at h
      · simp only [h2, if_false] at h
        obtain ⟨hc, hcase⟩ := ih _ _ _ h
        have hL : (msg.take (msg.length - 4)).length = msg.length - 4 := by
          simp only [List.length_take]
          omega
        refine ⟨hc, Or.inr ?_⟩
        rcases hcase with rfl | ⟨n, hn, rfl⟩
        · exact ⟨msg.length - 4, by omega, rfl⟩
        · have hlen : (msg.take (msg.length - 4) ++ ellipsis).length = msg.length - 1 := by
            simp [List.length_append, List.length_take, ellipsis]
            omega
          have hn' : n + 4 ≤ msg.length - 1 := by omega
          refine ⟨n, by omega, ?_⟩
          have hsmall : n ≤ msg.length - 4 := by omega
          rw [List.take_append_eq_append_take, hL]
          have h0 : n - (msg.length - 4) = 0 := by omega
          rw [h0, List.take_take, Nat.min_eq_left hsmall]
          simp

/-! ## Claims about mdEscape and terminalTrim -/

/-- `replaceByte` is a homomorphism for append. -/
theorem replaceByte_append (b : Nat) : ∀ (s t : Str),
    replaceByte b (s ++ t) = replaceByte b s ++ replaceByte b t := by
  intro s t
  induction s with
  | nil => rfl
  | cons x xs ih => by_cases hx : x = b <;> simp [replaceByte, hx, ih]

/-- `replaceByte` leaves a string without the needle untouched. -/
theorem replaceByte_of_not_mem (b : Nat) : ∀ s : Str, ¬ b ∈ s → replaceByte b s = s := by
  intro s
  induction s with
  | nil => intro _; rfl
  | cons x xs ih =>
    intro h
    simp only [List.mem_cons, not_or] at h
    obtain ⟨h1, h2⟩ := h
    have hx : ¬ x = b := fun hh => h1 hh.symm
    simp [replaceByte, hx, ih h2]

/-- `mdEscape` distributes over cons. -/
theorem mdEscape_cons (x : Nat) (s : Str) : mdEscape (x :: s) = mdEscape [x] ++ mdEscape s := by
  show replaceByte 62 (replaceByte 60 (replaceByte 124 ([x] ++ s))) = mdEscape [x] ++ mdEscape s
  rw [replaceByte_append, replaceByte_append, replaceByte_append]
  rfl

/-- `mdEscape` on a single byte. -/
theorem mdEscape_single (x : Nat) :
    mdEscape [x] = if x = 124 ∨ x = 60 ∨ x = 62 then [92, x] else [x] := by
  by_cases h1 : x = 124
  · subst h1; decide
  · by_cases h2 : x = 60
    · subst h2; decide
    · by_cases h3 : x = 62
      · subst h3; decide
      · simp [mdEscape, replaceByte, h1, h2, h3]

/-- `mdEscape` rewrites every `|`, `<`, `>` to its backslash-escaped form
and leaves every other byte alone. -/
theorem mdEscape_flatMap : ∀ s : Str,
    mdEscape s = s.flatMap (fun b => if b = 124 ∨ b = 60 ∨ b = 62 then [92, b] else [b]) := by
  intro s
  induction s with
  | nil => rfl
  | cons x xs ih => rw [mdEscape_cons, mdEscape_single, ih]; simp

/-- Claim C7: the Markdown escaper replaces each occurrence of the literal
characters `|`, `<`, `>` (bytes 124, 60, 62) by its backslash-escaped
form; it is idempotent on every string containing none of those three
characters; and escaping "a|b" yields "a\|b". -/
theorem mdEscape_claims :
    (∀ s : Str, mdEscape s = s.flatMap (fun b => if b = 124 ∨ b = 60 ∨ b = 62 then [92, b] else [b]))
    ∧ (∀ s : Str, ¬ (124 : Nat) ∈ s → ¬ (60 : Nat) ∈ s → ¬ (62 : Nat) ∈ s →
        mdEscape (mdEscape s) = mdEscape s)
    ∧ mdEscape (str "a|b") = str "a\\|b" := by
  refine ⟨mdEscape_flatMap, ?_, by decide⟩
  intro s h1 h2 h3
  have he : mdEscape s = s := by
    rw [mdEscape, replaceByte_of_not_mem _ _ h1, replaceByte_of_not_mem _ _ h2,
      replaceByte_of_not_mem _ _ h3]
  rw [he]
  exact he

/-- Witness for C7 at the concrete input "ab". -/
theorem mdEscape_claims_witness : mdEscape (mdEscape (str "ab")) = mdEscape (str "ab") :=
  mdEscape_claims.2.1 (str "ab") (by decide) (by decide) (by decide)

/-- Claim C9: with a detected width, trimming is a no-op whenever the
message's rune count is at most half the width; and at width 20 the input
"abcdefghijklmnop" is trimmed to at most 10 display characters ending in
an ellipsis. -/
theorem terminalTrim_noop_when_fits :
    (∀ (w : Nat) (msg : Str), runeCount msg ≤ w / 2 → terminalTrim (some w) msg = some msg)
    ∧ (∃ r, terminalTrim (some 20) (str "abcdefghijklmnop") = some r
        ∧ runeCount r ≤ 10 ∧ ∃ p, r = p ++ ellipsis) := by
  constructor
  · intro w msg h
    show trimLoop (msg.length + 1) (w / 2) msg = some msg
    simp only [trimLoop]
    simp [h]
  · exact ⟨str "abcdefghi" ++ ellipsis, by decide, by decide, str "abcdefghi", rfl⟩

/-- Witness for C9 at the concrete width 20 and message "ab". -/
theorem terminalTrim_noop_when_fits_witness :
    terminalTrim (some 20) (str "ab") = some (str "ab") :=
  terminalTrim_noop_when_fits.1 20 (str "ab") (by decide)

/-- Claim C2 (amended): with a detected width, the loop's condition counts
display characters, but removal is byte-based (four bytes per step); any
successful result fits half the width and is either the original message
or a byte prefix of it (possibly ending inside a multi-byte character)
followed by one ellipsis. -/
theorem terminalTrim_is_byte_based (w : Nat) (msg r : Str)
    (h : terminalTrim (some w) msg = some r) :
    runeCount r ≤ w / 2 ∧ (r = msg ∨ ∃ n, n + 4 ≤ msg.length ∧ r = msg.take n ++ ellipsis) :=
  trimLoop_sound _ _ _ _ h

/-- Witness for the amended C2: width 8 trims "abcdefgh" to "abc…". -/
theorem terminalTrim_is_byte_based_witness :
    runeCount (str "abc" ++ ellipsis) ≤ 8 / 2
    ∧ (str "abc" ++ ellipsis = str "abcdefgh"
        ∨ ∃ n, n + 4 ≤ (str "abcdefgh").length
            ∧ str "abc" ++ ellipsis = (str "abcdefgh").take n ++ ellipsis) :=
  terminalTrim_is_byte_based 8 (str "abcdefgh") (str "abc" ++ ellipsis) (by decide)

/-- Claim C2 as stated is false: at detected width 6, trimming "ßabc"
yields the bytes `[195, 226, 128, 166]` — a dangling UTF-8 lead byte 195
(the first byte of "ß", split mid-sequence) followed by the ellipsis — and
this is not any display-character prefix of "ßabc" plus an ellipsis. -/
theorem terminalTrim_splits_character :
    terminalTrim (some 6) (str "ßabc") = some [195, 226, 128, 166]
    ∧ ¬ ∃ n, runeTake n (str "ßabc") ++ ellipsis = [195, 226, 128, 166] := by
  refine ⟨by decide, ?_⟩
  rintro ⟨n, hn⟩
  have h5 : (str "ßabc").length = 5 := by decide
  rcases n with _ | _ | _ | _ | _ | n
  · exact absurd hn (by decide)
  · exact absurd hn (by decide)
  · exact absurd hn (by decide)
  · exact absurd hn (by decide)
  · exact absurd hn (by decide)
  · rw [runeTake_full (n + 5) _ (by omega)] at hn
    exact absurd hn (by decide)

/-- Claim C3 is wrong about the code: when the detected width is small the
slice `msg[0:len(msg)-4]` is evaluated with `len(msg) < 4` and Go panics
with an out-of-range slice bound (modelled by `none`), e.g. at width 1 on
"a" and at width 4 on "abc". -/
theorem terminalTrim_slice_out_of_range :
    terminalTrim (some 1) (str "a") = none ∧ terminalTrim (some 4) (str "abc") = none := by
  decide

/-! ## Characterizations of the field loop -/

/-- A member that is not a struct-kinded definition is skipped: no chunks,
no JSON entry, no error. -/
theorem processField_skip (w : Option Nat) (d : Str) (fmt : Format) (f : FieldInfo)
    (h : qualifies f = false) : processField w d fmt f = some ([], []) := by
  unfold processField
  by_cases hdef : f.isDefinition
  · have hk : f.value.kind ≠ CueKind.struct := by
      simp [qualifies, hdef] at h
      exact h
    simp [hdef, hk]
  · simp [Bool.not_eq_true] at hdef
    simp [hdef]

/-- In JSON mode a qualifying field contributes no chunks and exactly one
`FieldJSON` entry. -/
theorem processField_json (w : Option Nat) (d : Str) (f : FieldInfo)
    (h : qualifies f = true) :
    processField w d Format.json f = some ([], [mkFieldJSON d f]) := by
  obtain ⟨hdef, hk⟩ : f.isDefinition = true ∧ f.value.kind = CueKind.struct := by
    simpa [qualifies] using h
  simp [processField, hdef, hk, mkFieldJSON]

/-- In Markdown mode a qualifying field contributes exactly its block of
chunks and no JSON entry. -/
theorem processField_md (w : Option Nat) (d : Str) (f : FieldInfo)
    (h : qualifies f = true) :
    processField w d Format.md f = some (mdFieldChunks f, []) := by
  obtain ⟨hdef, hk⟩ : f.isDefinition = true ∧ f.value.kind = CueKind.struct := by
    simpa [qualifies] using h
  simp [processField, hdef, hk, mdFieldChunks, mdNameChunk, mdDescChunks, mdInChunks,
    mdOutChunks, mdInHeaderChunk, mdOutHeaderChunk]

/-- In text mode a qualifying field contributes its name chunk followed by
its Inputs and Outputs sections, when both sections render. -/
theorem processField_txt (w : Option Nat) (d : Str) (f : FieldInfo)
    (h : qualifies f = true) :
    processField w d Format.txt f =
      match txtInChunks w f, txtOutChunks w f with
      | some ic, some oc => some (txtNameChunk f :: (ic ++ oc), [])
      | _, _ => none := by
  obtain ⟨hdef, hk⟩ : f.isDefinition = true ∧ f.value.kind = CueKind.struct := by
    simpa [qualifies] using h
  cases hin : txtInChunks w f with
  | none =>
    simp only [txtInChunks, txtNoInputsChunk, List.length_eq_zero, List.append_assoc] at hin
    simp [processField, hdef, hk, hin]
  | some ic =>
    cases hout : txtOutChunks w f with
    | none =>
      simp only [txtInChunks, txtNoInputsChunk, List.length_eq_zero, List.append_assoc] at hin
      simp only [txtOutChunks, txtNoOutputsChunk, List.length_eq_zero, List.append_assoc] at hout
      simp [processField, hdef, hk, hin, hout]
    | some oc =>
      simp only [txtInChunks, txtNoInputsChunk, List.length_eq_zero, List.append_assoc] at hin
      simp only [txtOutChunks, txtNoOutputsChunk, List.length_eq_zero, List.append_assoc] at hout
      simp [processField, hdef, hk, hin, hout, txtNameChunk]

/-- The field loop in JSON mode: no chunks, and one `FieldJSON` per
qualifying field, in enumeration order. -/
theorem renderFields_json (w : Option Nat) (d : Str) : ∀ fs : List FieldInfo,
    renderFields w d Format.json fs = some ([], (fs.filter qualifies).map (mkFieldJSON d)) := by
  intro fs
  induction fs with
  | nil => rfl
  | cons f fs ih =>
    cases hq : qualifies f with
    | false => simp [renderFields, processField_skip w d Format.json f hq, ih, List.filter_cons, hq]
    | true => simp [renderFields, processField_json w d f hq, ih, List.filter_cons, hq]

/-- The field loop in Markdown mode: the concatenated blocks of the
qualifying fields, in enumeration order, and no JSON entries. -/
theorem renderFields_md (w : Option Nat) (d : Str) : ∀ fs : List FieldInfo,
    renderFields w d Format.md fs
      = some (((fs.filter qualifies).map mdFieldChunks).flatten, []) := by
  intro fs
  induction fs with
  | nil => rfl
  | cons f fs ih =>
    cases hq : qualifies f with
    | false => simp [renderFields, processField_skip w d Format.md f hq, ih, List.filter_cons, hq]
    | true => simp [renderFields, processField_md w d f hq, ih, List.filter_cons, hq]

/-- Dropping the non-qualifying members beforehand does not change the
loop's result, in any mode: they are skipped silently. -/
theorem renderFields_filter (w : Option Nat) (d : Str) (fmt : Format) : ∀ fs : List FieldInfo,
    renderFields w d fmt fs = renderFields w d fmt (fs.filter qualifies) := by
  intro fs
  induction fs with
  | nil => rfl
  | cons f fs ih =>
    cases hq : qualifies f with
    | false =>
      rw [List.filter_cons]
      simp only [hq, if_false, Bool.false_eq_true]
      rw [← ih]
      cases hr : renderFields w d fmt fs with
      | none => simp [renderFields, processField_skip w d fmt f hq, hr]
      | some pr => simp [renderFields, processField_skip w d fmt f hq, hr]
    | true =>
      rw [List.filter_cons]
      simp only [hq, if_true]
      simp only [renderFields, ih]

/-- The field loop in text mode: the result decomposes into one block per
qualifying field, in enumeration order, with no JSON entries. -/
theorem renderFields_txt (w : Option Nat) (d : Str) : ∀ (fs : List FieldInfo) (cs : List Str)
    (js : List FieldJSON), renderFields w d Format.txt fs = some (cs, js) →
    js = [] ∧ ∃ blocks, List.Forall₂ (txtBlockRel w) (fs.filter qualifies) blocks
      ∧ cs = blocks.flatten := by
  intro fs
  induction fs with
  | nil =>
    intro cs js h
    obtain ⟨rfl, rfl⟩ : cs = [] ∧ js = [] := by
      simpa [renderFields] using h.symm
    exact ⟨rfl, [], List.Forall₂.nil, rfl⟩
  | cons f fs ih =>
    intro cs js h
    cases hp : processField w d Format.txt f with
    | none => simp [renderFields, hp] at h
    | some pr =>
      cases hr : renderFields w d Format.txt fs with
      | none => simp [renderFields, hp, hr] at h
      | some pr' =>
        obtain ⟨c1, j1⟩ := pr
        obtain ⟨c2, j2⟩ := pr'
        obtain ⟨rfl, rfl⟩ : cs = c1 ++ c2 ∧ js = j1 ++ j2 := by
          rw [renderFields, hp, hr] at h
          simpa using h.symm
        obtain ⟨rfl, blocks', hfa, rfl⟩ :
            j2 = [] ∧ ∃ blocks', List.Forall₂ (txtBlockRel w) (fs.filter qualifies) blocks'
              ∧ c2 = blocks'.flatten := by
          obtain ⟨h1, h2⟩ := ih c2 j2 hr
          exact ⟨h1, h2⟩
        cases hq : qualifies f with
        | false =>
          obtain ⟨rfl, rfl⟩ : c1 = [] ∧ j1 = [] := by
            have := processField_skip w d Format.txt f hq
            rw [this] at hp
            simpa using hp.symm
          refine ⟨rfl, blocks', ?_, rfl⟩
          rw [List.filter_cons]
          simp only [hq, if_false, Bool.false_eq_true]
          exact hfa
        | true =>
          have hch := processField_txt w d f hq
          rw [hp] at hch
          cases hic : txtInChunks w f with
          | none => rw [hic] at hch; exact absurd hch.symm (by simp)
          | some ic =>
            cases hoc : txtOutChunks w f with
            | none => rw [hic, hoc] at hch; exact absurd hch.symm (by simp)
            | some oc =>
              rw [hic, hoc] at hch
              obtain ⟨rfl, rfl⟩ : c1 = txtNameChunk f :: (ic ++ oc) ∧ j1 = [] := by
                simpa using hch
              refine ⟨rfl, (txtNameChunk f :: (ic ++ oc)) :: blocks', ?_, by simp⟩
              rw [List.filter_cons]
              simp only [hq, if_true]
              exact List.Forall₂.cons ⟨ic, oc, hic, hoc, rfl⟩ hfa

/-- `PrintDoc` in JSON mode, fully computed. -/
theorem printDoc_json_eq (pn : Str) (w : Option Nat) (pkg : PkgVal) (fs : List FieldInfo)
    (hf : pkg.fields = some fs) :
    printDoc pn w pkg Format.json = some
      { chunks := [],
        json := { Name := pn, Description := if pkg.doc ≠ [] then pkg.doc else [],
                  Fields := (fs.filter qualifies).map (mkFieldJSON pkg.doc) } } := by
  simp [printDoc, hf, renderFields_json]

/-- `PrintDoc` in Markdown mode, fully computed. -/
theorem printDoc_md_eq (pn : Str) (w : Option Nat) (pkg : PkgVal) (fs : List FieldInfo)
    (hf : pkg.fields = some fs) :
    printDoc pn w pkg Format.md = some
      { chunks := mdHeader pn pkg.doc ++ ((fs.filter qualifies).map mdFieldChunks).flatten,
        json := { Name := [], Description := [], Fields := [] } } := by
  simp [printDoc, hf, renderFields_md]

/-- A successful `PrintDoc` run in text mode decomposes into the header
plus one block per qualifying field, in order. -/
theorem printDoc_txt_charac (pn : Str) (w : Option Nat) (pkg : PkgVal) (fs : List FieldInfo)
    (out : DocOutput) (hf : pkg.fields = some fs)
    (h : printDoc pn w pkg Format.txt = some out) :
    ∃ blocks, List.Forall₂ (txtBlockRel w) (fs.filter qualifies) blocks
      ∧ out.chunks = txtHeader pn pkg.doc ++ blocks.flatten
      ∧ out.json = { Name := [], Description := [], Fields := [] } := by
  simp only [printDoc, hf] at h
  cases hr : renderFields w pkg.doc Format.txt fs with
  | none => rw [hr] at h; simp at h
  | some pr =>
    obtain ⟨cs, js⟩ := pr
    rw [hr] at h
    simp only [Option.some.injEq] at h
    obtain ⟨hjs, blocks, hfa, hcs⟩ := renderFields_txt w pkg.doc fs cs js hr
    subst hjs
    subst hcs
    refine ⟨blocks, hfa, ?_, ?_⟩
    · rw [← h]
    · rw [← h]

/-- Each text block of a qualifying field starts with that field's name
chunk. -/
theorem txtBlockRel_heads (w : Option Nat) : ∀ (l : List FieldInfo) (bs : List (List Str)),
    List.Forall₂ (txtBlockRel w) l bs →
    bs.map List.head? = l.map (fun f => some (txtNameChunk f)) := by
  intro l bs h
  induction h with
  | nil => rfl
  | cons hr _ ih =>
    obtain ⟨ic, oc, _, _, rfl⟩ := hr
    simp [ih]

/-! ## Claims about PrintDoc -/

/-- Claim C1: in JSON output mode the Description stored in every rendered
field's `FieldJSON` is computed from the package-level value's doc string
(doc.go line 234 reads `common.ValueDocString(val)`, the package root),
so it equals the package description — or is empty when that is empty —
and never comes from the field's own value's doc string. -/
theorem json_descriptions_use_package_doc (pn : Str) (w : Option Nat) (pkg : PkgVal)
    (fs : List FieldInfo) (out : DocOutput) (hf : pkg.fields = some fs)
    (h : printDoc pn w pkg Format.json = some out) :
    ∀ fj ∈ out.json.Fields, fj.Description = pkg.doc := by
  rw [printDoc_json_eq pn w pkg fs hf] at h
  injection h with h'
  subst h'
  intro fj hfj
  simp only [List.mem_map] at hfj
  obtain ⟨g, _, rfl⟩ := hfj
  by_cases hd : pkg.doc = [] <;> simp [mkFieldJSON, hd]

/-- Witness for C1: for the sample package (package doc "pdoc", field doc
"field doc") the rendered field's JSON description is the package doc. -/
theorem json_descriptions_use_package_doc_witness :
    (mkFieldJSON (str "pdoc") exField).Description = exPkg.doc :=
  json_descriptions_use_package_doc (str "p") none exPkg [exScalarField, exField]
    { chunks := [],
      json := { Name := str "p", Description := str "pdoc",
                Fields := [mkFieldJSON (str "pdoc") exField] } }
    rfl (by decide) (mkFieldJSON (str "pdoc") exField) (by decide)

/-- Claim C4: the three formats render the same sequence of field names —
the labels of the qualifying members, in the compiler-reported enumeration
order (`List.filter` keeps order; no sorting happens anywhere): JSON's
`Fields` names, the heads of the text blocks, and the heads of the
Markdown blocks are all that same sequence. -/
theorem field_names_agree_across_formats (pn : Str) (w : Option Nat) (pkg : PkgVal)
    (fs : List FieldInfo) (outTxt outMd outJson : DocOutput)
    (hf : pkg.fields = some fs)
    (ht : printDoc pn w pkg Format.txt = some outTxt)
    (hm : printDoc pn w pkg Format.md = some outMd)
    (hj : printDoc pn w pkg Format.json = some outJson) :
    outJson.json.Fields.map FieldJSON.Name = (fs.filter qualifies).map FieldInfo.label
    ∧ (∃ blocks : List (List Str),
        outTxt.chunks = txtHeader pn pkg.doc ++ blocks.flatten
        ∧ blocks.map List.head? = (fs.filter qualifies).map (fun f => some (txtNameChunk f)))
    ∧ outMd.chunks = mdHeader pn pkg.doc ++ ((fs.filter qualifies).map mdFieldChunks).flatten
    ∧ (∀ f : FieldInfo, (mdFieldChunks f).head? = some (mdNameChunk f)) := by
  refine ⟨?_, ?_, ?_, fun f => rfl⟩
  · rw [printDoc_json_eq pn w pkg fs hf] at hj
    injection hj with hj'
    subst hj'
    simp [mkFieldJSON, List.map_map, Function.comp]
  · obtain ⟨blocks, hfa, hcs, -⟩ := printDoc_txt_charac pn w pkg fs outTxt hf ht
    exact ⟨blocks, hcs, txtBlockRel_heads w _ _ hfa⟩
  · rw [printDoc_md_eq pn w pkg fs hf] at hm
    injection hm with hm'
    subst hm'
    rfl

/-- Witness for C4: the JSON field-name sequence of the sample package is
the label of its single qualifying member. -/
theorem field_names_agree_across_formats_witness :
    ({ chunks := [],
       json := { Name := str "p", Description := str "pdoc",
                 Fields := [mkFieldJSON (str "pdoc") exField] } } : DocOutput).json.Fields.map
        FieldJSON.Name
      = ([exScalarField, exField].filter qualifies).map FieldInfo.label :=
  (field_names_agree_across_formats (str "p") none exPkg [exScalarField, exField]
    { chunks := [str "Package p\n", str "\npdoc\n", str "\nmypkg\n\n    field doc\n",
                 str "\n    Inputs:\n", str "\t\tsrc\tstring\tinput doc\n",
                 str "\n    Outputs: none\n"],
      json := { Name := [], Description := [], Fields := [] } }
    { chunks := [str "## Package p\n", str "\npdoc\n\n", str "### mypkg\n\n",
                 str "field doc\n\n", str "#### mypkg Inputs\n\n", mdTableHeader1,
                 mdTableHeader2, str "|*src*\t|``string``\t|input doc\t|\n", str "\n",
                 str "#### mypkg Outputs\n\n", str "_No output._\n\n"],
      json := { Name := [], Description := [], Fields := [] } }
    { chunks := [],
      json := { Name := str "p", Description := str "pdoc",
                Fields := [mkFieldJSON (str "pdoc") exField] } }
    rfl (by decide) (by decide) (by decide)).1

/-- Claim C5: a top-level member is rendered iff it is a named definition
of struct kind; every other member is skipped silently — removing the
non-qualifying members beforehand yields the very same result (same
chunks, same JSON document, same success) in every format, and the
rendered content is exactly the qualifying members' in each format. -/
theorem non_qualifying_members_skipped (pn : Str) (w : Option Nat) (pkg : PkgVal)
    (fs : List FieldInfo) (hf : pkg.fields = some fs) :
    (∀ fmt, printDoc pn w pkg fmt
        = printDoc pn w { doc := pkg.doc, fields := some (fs.filter qualifies) } fmt)
    ∧ (∀ out, printDoc pn w pkg Format.json = some out →
        out.json.Fields = (fs.filter qualifies).map (mkFieldJSON pkg.doc))
    ∧ (∀ out, printDoc pn w pkg Format.md = some out →
        out.chunks = mdHeader pn pkg.doc ++ ((fs.filter qualifies).map mdFieldChunks).flatten)
    ∧ (∀ out, printDoc pn w pkg Format.txt = some out →
        ∃ blocks, List.Forall₂ (txtBlockRel w) (fs.filter qualifies) blocks
          ∧ out.chunks = txtHeader pn pkg.doc ++ blocks.flatten) := by
  refine ⟨?_, ?_, ?_, ?_⟩
  · intro fmt
    simp only [printDoc, hf]
    rw [renderFields_filter]
  · intro out h
    rw [printDoc_json_eq pn w pkg fs hf] at h
    injection h with h'
    subst h'
    rfl
  · intro out h
    rw [printDoc_md_eq pn w pkg fs hf] at h
    injection h with h'
    subst h'
    rfl
  · intro out h
    obtain ⟨blocks, hfa, hcs, -⟩ := printDoc_txt_charac pn w pkg fs out hf h
    exact ⟨blocks, hfa, hcs⟩

/-- Witness for C5: on the sample package (one scalar definition, one
struct definition) filtering out the non-qualifying member first changes
nothing in text mode. -/
theorem non_qualifying_members_skipped_witness :
    printDoc (str "p") none exPkg Format.txt
      = printDoc (str "p") none
          { doc := exPkg.doc, fields := some ([exScalarField, exField].filter qualifies) }
          Format.txt :=
  (non_qualifying_members_skipped (str "p") none exPkg [exScalarField, exField] rfl).1 Format.txt

/-- Claim C6: for a qualifying field with an empty input (respectively
output) sequence, text mode prints the "Inputs: none" (respectively
"Outputs: none") line, Markdown mode prints the italic "_No input._"
(respectively "_No output._") paragraph after the section heading, and
the JSON record stores `some []` — the empty non-nil slice built by
`valuesToJSON`, marshalled as an empty array rather than null. -/
theorem empty_io_sections (w : Option Nat) (d : Str) (f : FieldInfo)
    (hq : qualifies f = true) :
    (f.value.inputs = [] →
      (∀ cs js, processField w d Format.txt f = some (cs, js) →
        ∃ rest, cs = txtNameChunk f :: txtNoInputsChunk :: rest)
      ∧ processField w d Format.md f
          = some (mdNameChunk f ::
              (mdDescChunks f ++ (mdInHeaderChunk f :: str "_No input._\n\n" :: mdOutChunks f)),
              [])
      ∧ (mkFieldJSON d f).Inputs = some [])
    ∧ (f.value.outputs = [] →
      (∀ cs js, processField w d Format.txt f = some (cs, js) →
        ∃ pre, cs = pre ++ [txtNoOutputsChunk])
      ∧ processField w d Format.md f
          = some (mdNameChunk f ::
              (mdDescChunks f ++ mdInChunks f ++ [mdOutHeaderChunk f, str "_No output._\n\n"]),
              [])
      ∧ (mkFieldJSON d f).Outputs = some []) := by
  constructor
  · intro hin
    refine ⟨?_, ?_, ?_⟩
    · intro cs js h
      rw [processField_txt w d f hq] at h
      have hic : txtInChunks w f = some [txtNoInputsChunk] := by simp [txtInChunks, hin]
      rw [hic] at h
      cases hoc : txtOutChunks w f with
      | none => rw [hoc] at h; simp at h
      | some oc =>
        rw [hoc] at h
        refine ⟨oc, ?_⟩
        simp only [Option.some.injEq, Prod.mk.injEq] at h
        rw [← h.1]
        rfl
    · rw [processField_md w d f hq]
      simp [mdFieldChunks, mdInChunks, hin]
    · simp [mkFieldJSON, valuesToJSON, hin]
  · intro hout
    refine ⟨?_, ?_, ?_⟩
    · intro cs js h
      rw [processField_txt w d f hq] at h
      have hoc : txtOutChunks w f = some [txtNoOutputsChunk] := by simp [txtOutChunks, hout]
      rw [hoc] at h
      cases hic : txtInChunks w f with
      | none => rw [hic] at h; simp at h
      | some ic =>
        rw [hic] at h
        refine ⟨txtNameChunk f :: ic, ?_⟩
        simp only [Option.some.injEq, Prod.mk.injEq] at h
        rw [← h.1]
        rfl
    · rw [processField_md w d f hq]
      simp [mdFieldChunks, mdOutChunks, hout]
    · simp [mkFieldJSON, valuesToJSON, hout]

/-- Witness for C6: the JSON record of the sample field with no inputs
stores the empty array, not the nil slice. -/
theorem empty_io_sections_witness :
    (mkFieldJSON (str "pd") exEmptyField).Inputs = some [] :=
  ((empty_io_sections none (str "pd") exEmptyField (by decide)).1 rfl).2.2

/-- Claim C8: for a qualifying field whose doc string is the "no comment"
sentinel "-", Markdown mode emits the field heading but no description
paragraph (the chunk after the heading is already the Inputs heading),
while text mode still prints the sentinel literally inside the field's
name chunk. -/
theorem sentinel_doc_rendering (w : Option Nat) (d : Str) (f : FieldInfo)
    (hq : qualifies f = true) (hs : f.value.doc = str "-") :
    processField w d Format.md f
      = some (mdNameChunk f :: (mdInChunks f ++ mdOutChunks f), [])
    ∧ (∀ cs js, processField w d Format.txt f = some (cs, js) →
        cs.head? = some (str "\n" ++ f.label ++ str "\n\n" ++ textPadding ++ str "-" ++ str "\n")) := by
  constructor
  · rw [processField_md w d f hq]
    simp [mdFieldChunks, mdDescChunks, hs]
  · intro cs js h
    rw [processField_txt w d f hq] at h
    cases hic : txtInChunks w f with
    | none => rw [hic] at h; simp at h
    | some ic =>
      cases hoc : txtOutChunks w f with
      | none => rw [hic, hoc] at h; simp at h
      | some oc =>
        rw [hic, hoc] at h
        simp only [Option.some.injEq, Prod.mk.injEq] at h
        rw [← h.1]
        simp [txtNameChunk, hs]

/-- Witness for C8: the sentinel field's Markdown block has no description
paragraph. -/
theorem sentinel_doc_rendering_witness :
    processField none (str "pd") Format.md exSentinelField
      = some (mdNameChunk exSentinelField ::
          (mdInChunks exSentinelField ++ mdOutChunks exSentinelField), []) :=
  (sentinel_doc_rendering none (str "pd") exSentinelField (by decide) rfl).1

/-- Claim C10: in Markdown mode the Name column of every input/output
table row carries the `formatLabel`-derived short label verbatim, with no
Markdown escaping (unlike the Type and Description columns), so a label
containing `|` lands in the pipe-table syntax unescaped. -/
theorem md_rows_use_unescaped_labels :
    (∀ (lib : Str) (vs : List VNode) (v : VNode), v ∈ vs →
      mdRow lib v ∈ printValuesMarkdown lib vs)
    ∧ formatLabel (str "p") pipeNode = str "a|b"
    ∧ mdEscape (formatLabel (str "p") pipeNode) ≠ formatLabel (str "p") pipeNode
    ∧ printValuesMarkdown (str "p") [pipeNode]
        = [mdTableHeader1, mdTableHeader2, str "|*a|b*\t|``T``\t|d\t|\n", str "\n"] := by
  refine ⟨?_, by decide, by decide, by decide⟩
  intro lib vs v hv
  simp only [printValuesMarkdown, List.mem_cons, List.mem_append, List.mem_map]
  exact Or.inr (Or.inr (Or.inl ⟨v, hv, rfl⟩))

/-- Witness for C10: the pipe-labelled node's row is one of the emitted
Markdown chunks. -/
theorem md_rows_use_unescaped_labels_witness :
    mdRow (str "p") pipeNode ∈ printValuesMarkdown (str "p") [pipeNode] :=
  md_rows_use_unescaped_labels.1 (str "p") [pipeNode] pipeNode (by simp)
